import Mathlib

/-
Formal model of the snputils PGEN writer
(src/snputils/snp/io/write/pgen.py, class PGENWriter).

The Python source is shallowly embedded: pure path/string manipulation
becomes Lean functions on String / List Char, the numpy arrays become
flat lists paired with their shape, and calls into the external
libraries (polars CSV serialization, zstandard compression, the pgenlib
binary codec) are modelled at their documented boundaries.
-/

namespace PGENSpec

/-! ## Path handling (pathlib semantics used by PGENWriter.write) -/

/-- The last path component of a POSIX path string (pathlib `Path.name`):
everything after the final slash. -/
def lastComponent (cs : List Char) : List Char :=
  cs.foldl (fun acc c => if c == '/' then [] else acc ++ [c]) []

/-- Index of the last dot in a list of characters, if any. -/
def lastDotIdx (cs : List Char) : Option Nat :=
  ((List.range cs.length).filter (fun i => cs.getD i ' ' == '.')).getLast?

/-- pathlib `Path.suffix`: the extension of the final component, from its
last dot onward; empty when the name has no dot, starts with its only
dot, or ends in a dot. -/
def pathSuffix (p : String) : String :=
  let name := lastComponent p.toList
  match lastDotIdx name with
  | some i => if 0 < i ∧ i + 1 < name.length then String.mk (name.drop i) else ""
  | none => ""

/-- pathlib `Path.with_suffix('')`: the path with its suffix (as computed
by `pathSuffix`) removed. -/
def withSuffixEmpty (p : String) : String :=
  let cs := p.toList
  String.mk (cs.take (cs.length - (pathSuffix p).toList.length))

/-- The tuple `file_extensions` from `PGENWriter.write`
(`(".pgen", ".psam", ".pvar", ".pvar.zst")`). -/
def file_extensions : List String := [".pgen", ".psam", ".pvar", ".pvar.zst"]

/-- Lines 36-38 of `PGENWriter.write`: if the supplied base path's
`Path.suffix` is one of the known extensions, drop it. -/
def stripBase (p : String) : String :=
  if file_extensions.contains (pathSuffix p) then withSuffixEmpty p else p

/-! ## Data model -/

/-- A two-dimensional numpy array over `α`: row-major flat data plus its
shape, with the numpy invariant that the data fills the shape exactly. -/
structure Mat2 (α : Type) where
  rows : Nat
  cols : Nat
  data : List α
  hsize : data.length = rows * cols

/-- A three-dimensional numpy array over `α` (row-major). -/
structure Mat3 (α : Type) where
  dim0 : Nat
  dim1 : Nat
  dim2 : Nat
  data : List α
  hsize : data.length = dim0 * (dim1 * dim2)

/-- The `calldata_gt` array: 2-dimensional (variants x samples, unphased
layout) or 3-dimensional (variants x samples x alleles, phased layout). -/
inductive CallData where
  | d2 (m : Mat2 Int)
  | d3 (m : Mat3 Int)

/-- numpy `ndim` of the call data. -/
def ndim : CallData → Nat
  | .d2 _ => 2
  | .d3 _ => 3

/-- First axis of `calldata_gt.shape`: the number of variants. -/
def numVariants : CallData → Nat
  | .d2 m => m.rows
  | .d3 m => m.dim0

/-- Second axis of `calldata_gt.shape`: the number of samples. -/
def numSamples : CallData → Nat
  | .d2 m => m.cols
  | .d3 m => m.dim1

/-- Third axis of a 3-dimensional `calldata_gt.shape` (taken as 1 in the
2-dimensional case, where no allele axis exists). -/
def numAlleles : CallData → Nat
  | .d2 _ => 1
  | .d3 m => m.dim2

/-- Number of calls per variant row after `write_pgen`'s flattening
(`reshape(num_variants, num_samples * num_alleles)` in the phased case,
the array itself in the unphased case). -/
def flatCols : CallData → Nat
  | .d2 m => m.cols
  | .d3 m => m.dim1 * m.dim2

/-- The row-major flat data of the call array; numpy `reshape` never
reorders it. -/
def flatData : CallData → List Int
  | .d2 m => m.data
  | .d3 m => m.data

/-- Row `i` of the flattened genotype matrix (`flat_genotypes[i]`). -/
def flatRow (c : CallData) (i : Nat) : List Int :=
  ((flatData c).drop (i * flatCols c)).take (flatCols c)

/-- A two-dimensional numpy array of strings with at least the metadata
needed for `variants_alt` (rows = variants, cols = alternate alleles). -/
abbrev StrMat := Mat2 String

/-- Modelled from the spec: the in-memory genotype object (class
`SNPObject` of `snputils.snp.genobj.snpobj`, which is not under src/).
Per the spec's data model it carries the genotype call array and the
ordered variant table (chromosome, position, id, ref, alt, filter-pass
flag) plus the ordered sample list; the tabular fields are modelled at
the serialization boundary as strings. -/
structure SNPObject where
  calldata_gt : CallData
  variants_chrom : List String
  variants_pos : List String
  variants_id : List String
  variants_ref : List String
  variants_alt : StrMat
  variants_filter_pass : List String
  samples : List String

/-! ## int32 conversion (`astype(np.int32)`) -/

/-- numpy `astype(np.int32)` on an integer value: wrap modulo 2^32 into
the signed 32-bit range (C-style cast; no error, no saturation). -/
def toInt32 (v : Int) : Int :=
  (v + 2147483648) % 4294967296 - 2147483648

/-! ## The pgenlib writer call made by write_pgen -/

/-- The arguments `PGENWriter.write_pgen` hands to
`pgenlib.PgenWriter(...)` together with the ordered trace of
`append_alleles` calls it then performs. -/
structure PgenCall where
  filename : String
  sample_ct : Nat
  variant_ct : Nat
  hardcall_phase_present : Bool
  appends : List (List Int)

/-- `PGENWriter.write_pgen` (lines 99-124): the phased flag is
`calldata_gt.ndim == 3`; the phased array is flattened to
`(num_variants, num_samples * num_alleles)`; the writer is opened on
`str(self.__filename)` (note: no ".pgen" appended) with
`sample_ct = num_samples`, `variant_ct = num_variants`,
`hardcall_phase_present = phased`; then one `append_alleles` call per
variant row, in row order, each row cast with `astype(np.int32)`. -/
def write_pgen (filename : String) (s : SNPObject) : PgenCall :=
  let c := s.calldata_gt
  { filename := filename
    sample_ct := numSamples c
    variant_ct := numVariants c
    hardcall_phase_present := ndim c == 3
    appends := (List.range (numVariants c)).map (fun i => (flatRow c i).map toInt32) }

/-! ## CSV rendering (boundary model of polars `DataFrame.write_csv`) -/

/-- Concatenation of a list of strings. -/
def strJoin : List String → String
  | [] => ""
  | x :: xs => x ++ strJoin xs

/-- Strings joined with a separator between consecutive elements. -/
def joinSep (sep : String) : List String → String
  | [] => ""
  | [x] => x
  | x :: y :: xs => x ++ sep ++ joinSep sep (y :: xs)

/-- Modelled from the spec and the polars boundary: whether a CSV field
needs quoting under the default "quote when necessary" style (field
contains the tab separator, the quote character, or a line break). -/
def needsQuote (s : String) : Bool :=
  s.toList.any (fun c => c == '\t' || c == '"' || c == '\n' || c == '\r')

/-- A CSV field with every quote character doubled. -/
def escQuote (s : String) : String :=
  strJoin (s.toList.map (fun c => if c == '"' then "\"\"" else String.singleton c))

/-- Modelled from the spec and the polars boundary: one rendered CSV
field (quoted and escaped only when necessary). -/
def csvCell (s : String) : String :=
  if needsQuote s then "\"" ++ escQuote s ++ "\"" else s

/-- One line of tab-separated CSV output, newline-terminated. -/
def csvLine (cells : List String) : String :=
  joinSep "\t" (cells.map csvCell) ++ "\n"

/-- Whether every string in a list renders as itself (no quoting). -/
def plainList (l : List String) : Bool :=
  l.all (fun x => !needsQuote x)

/-! ## Sidecar writers -/

/-- `variants_alt[:, 0]` at row `i`: numpy element `data[i * cols]`. -/
def altFirst (m : StrMat) (i : Nat) : String :=
  m.data.getD (i * m.cols) ""

/-- The ALT allele list of variant `i` (row `i` of `variants_alt`). -/
def altAlleles (m : StrMat) (i : Nat) : List String :=
  (m.data.drop (i * m.cols)).take m.cols

/-- `PGENWriter.write_pvar`, lines 59-73: the tab-separated text built
from the polars DataFrame with columns #CHROM, POS, ID, REF,
ALT (= `variants_alt[:, 0]`), FILTER. Returns `none` when the source
would raise before producing text: numpy `[:, 0]` on a zero-column
array, or polars rejecting columns of unequal length. -/
def pvarCsv (s : SNPObject) : Option String :=
  if 0 < s.variants_alt.cols ∧
     s.variants_pos.length = s.variants_chrom.length ∧
     s.variants_id.length = s.variants_chrom.length ∧
     s.variants_ref.length = s.variants_chrom.length ∧
     s.variants_alt.rows = s.variants_chrom.length ∧
     s.variants_filter_pass.length = s.variants_chrom.length then
    some (csvLine ["#CHROM", "POS", "ID", "REF", "ALT", "FILTER"] ++
      strJoin ((List.range s.variants_chrom.length).map (fun i =>
        csvLine [s.variants_chrom.getD i "", s.variants_pos.getD i "",
                 s.variants_id.getD i "", s.variants_ref.getD i "",
                 altFirst s.variants_alt i,
                 s.variants_filter_pass.getD i ""])))
  else none

/-- `PGENWriter.write_psam`, lines 85-97: the tab-separated text of the
DataFrame with the IID column from `samples` and the SEX column
broadcast from the scalar "NA". -/
def psamCsv (s : SNPObject) : String :=
  csvLine ["IID", "SEX"] ++
    strJoin (s.samples.map (fun x => csvLine [x, "NA"]))

/-- UTF-8 encoding of one Unicode scalar value (Python `str.encode`). -/
def utf8EncodeChar (c : Char) : List Nat :=
  let n := c.toNat
  if n < 128 then [n]
  else if n < 2048 then [192 + n / 64, 128 + n % 64]
  else if n < 65536 then [224 + n / 4096, 128 + n / 64 % 64, 128 + n % 64]
  else [240 + n / 262144, 128 + n / 4096 % 64, 128 + n / 64 % 64, 128 + n % 64]

/-- UTF-8 encoding of a string as a byte list. -/
def utf8Encode (s : String) : List Nat :=
  (s.toList.map utf8EncodeChar).flatten

/-- What a sidecar file write puts on disk: text (`open(..., 'w')`) or
bytes (`open(..., 'wb')`). -/
inductive FileContent where
  | text (t : String)
  | binary (b : List Nat)

/-- A completed file write: target path and content. -/
structure FileWrite where
  path : String
  content : FileContent

/-- `PGENWriter.write_pvar`, lines 45-83, with the zstandard compressor
passed in as an abstract byte transform: the output filename is
`{filename}.pvar`, extended with `.zst` when `vzs`; when `vzs` the
bytes written are the compression of the UTF-8 encoded CSV text,
otherwise the CSV text itself. -/
def write_pvar (compress : List Nat → List Nat) (filename : String)
    (s : SNPObject) (vzs : Bool) : Option FileWrite :=
  match pvarCsv s with
  | none => none
  | some csv =>
    if vzs then
      some ⟨filename ++ ".pvar" ++ ".zst", FileContent.binary (compress (utf8Encode csv))⟩
    else
      some ⟨filename ++ ".pvar", FileContent.text csv⟩

/-- `PGENWriter.write_psam`, lines 85-97: writes the psam CSV text to
`{filename}.psam`. -/
def write_psam (filename : String) (s : SNPObject) : FileWrite :=
  ⟨filename ++ ".psam", FileContent.text (psamCsv s)⟩

/-! ## Spec-modelled binary codec boundary -/

/-- Modelled from the spec: the error the append contract raises on a
call value outside the supported hardcall alphabet. -/
inductive PgenError where
  | UnsupportedGenotypeError

/-- Modelled from the spec: the value-validation part of the Genotype
Block Encoder's append contract (the binary codec itself is the
external pgenlib library, not under src/). Values are restricted to
the 2-bit / 4-value hardcall alphabet; anything else fails with
`UnsupportedGenotypeError`. -/
def appendRow (row : List Int) : Except PgenError Unit :=
  if row.all (fun v => decide (0 ≤ v) && decide (v < 4)) then
    Except.ok ()
  else
    Except.error PgenError.UnsupportedGenotypeError

/-- Running the sequence of `append_alleles` calls against the modelled
append contract, stopping at the first failure. -/
def runAppends : List (List Int) → Except PgenError Unit
  | [] => Except.ok ()
  | r :: rs =>
    match appendRow r with
    | Except.ok _ => runAppends rs
    | Except.error e => Except.error e

/-- `PGENWriter.write_pgen` followed by the modelled append contract:
the int32-cast rows the source hands to the codec, validated in
order. -/
def writePgenRun (filename : String) (s : SNPObject) : Except PgenError Unit :=
  runAppends (write_pgen filename s).appends

/-! ## PGENWriter.write orchestration -/

/-- The `PGENWriter` instance state: the genotype object and the
supplied base path. -/
structure PGENWriter where
  snpobj : SNPObject
  filename : String

/-- One observable output action of `PGENWriter.write`: a completed
sidecar file write, or the pgenlib writer call producing the binary
genotype file. -/
inductive Step where
  | sidecar (f : FileWrite)
  | pgen (c : PgenCall)

/-- Whether a step is the binary (pgen) write. -/
def isPgenStep : Step → Bool
  | .pgen _ => true
  | .sidecar _ => false

/-- Whether a trace contains a binary (pgen) write. -/
def hasPgenStep (t : List Step) : Bool :=
  t.any isPgenStep

/-- Whether every sidecar write in a trace happens strictly before every
binary write: once a pgen step occurs, only pgen steps follow. -/
def sidecarsBeforePgen (t : List Step) : Bool :=
  (t.dropWhile (fun st => !isPgenStep st)).all isPgenStep

/-- The target paths of the sidecar writes in a trace, in order. -/
def sidecarPaths (t : List Step) : List String :=
  t.filterMap (fun st =>
    match st with
    | .sidecar fw => some fw.path
    | .pgen _ => none)

/-- The filenames handed to the pgenlib binary writer in a trace. -/
def pgenTargets (t : List Step) : List String :=
  t.filterMap (fun st =>
    match st with
    | .pgen c => some c.filename
    | .sidecar _ => none)

/-- `PGENWriter.write`, lines 29-43: strip a known extension from the
base path, then write the .pvar sidecar, the .psam sidecar, and the
.pgen binary file, in that order. `pvarOk` and `psamOk` model the
underlying storage medium accepting or refusing each sidecar write
(an IO failure raises and aborts the method). The result is the trace
of completed output actions and whether the method returned
normally. -/
def write (compress : List Nat → List Nat) (w : PGENWriter) (vzs : Bool)
    (pvarOk psamOk : Bool) : List Step × Bool :=
  match write_pvar compress (stripBase w.filename) w.snpobj vzs with
  | none => ([], false)
  | some fv =>
    if pvarOk then
      if psamOk then
        ([Step.sidecar fv, Step.sidecar (write_psam (stripBase w.filename) w.snpobj),
          Step.pgen (write_pgen (stripBase w.filename) w.snpobj)], true)
      else
        ([Step.sidecar fv], false)
    else
      ([], false)

/-! ## Helper lemmas -/

theorem flatData_length (c : CallData) :
    (flatData c).length = numVariants c * flatCols c := by
  cases c with
  | d2 m => exact m.hsize
  | d3 m => exact m.hsize

theorem flatRow_length (c : CallData) (i : Nat) (h : i < numVariants c) :
    (flatRow c i).length = flatCols c := by
  unfold flatRow
  rw [List.length_take, List.length_drop, flatData_length]
  have h1 : flatCols c ≤ numVariants c * flatCols c - i * flatCols c := by
    rw [← Nat.sub_mul]
    exact Nat.le_mul_of_pos_left _ (by omega)
  exact Nat.min_eq_left h1

theorem flatten_slices {α : Type} (C : Nat) :
    ∀ (V : Nat) (l : List α), l.length = V * C →
      ((List.range V).map (fun i => (l.drop (i * C)).take C)).flatten = l := by
  intro V
  induction V with
  | zero =>
    intro l hl
    simp only [Nat.zero_mul] at hl
    simp [List.eq_nil_of_length_eq_zero hl]
  | succ n ih =>
    intro l hl
    rw [List.range_succ_eq_map, List.map_cons, List.map_map, List.flatten_cons]
    have hmap : List.map ((fun i => (l.drop (i * C)).take C) ∘ Nat.succ) (List.range n) =
        List.map (fun i => ((l.drop C).drop (i * C)).take C) (List.range n) := by
      apply List.map_congr_left
      intro a _
      simp only [Function.comp]
      rw [List.drop_drop]
      have : Nat.succ a * C = C + a * C := by
        rw [Nat.succ_mul]; omega
      rw [this]
    rw [hmap, ih (l.drop C) (by rw [List.length_drop, hl, Nat.succ_mul]; omega)]
    simp [List.take_append_drop]

theorem mem_flatData_exists_row {c : CallData} {v : Int}
    (hv : v ∈ flatData c) :
    ∃ i, i < numVariants c ∧ v ∈ flatRow c i := by
  have hflat := flatten_slices (flatCols c) (numVariants c) (flatData c) (flatData_length c)
  rw [← hflat] at hv
  rcases List.mem_flatten.mp hv with ⟨row, hrow, hvrow⟩
  rcases List.mem_map.mp hrow with ⟨i, hi, hrow2⟩
  exact ⟨i, List.mem_range.mp hi, by rw [flatRow]; rw [hrow2]; exact hvrow⟩

theorem toInt32_eq_self {v : Int} (h1 : -2147483648 ≤ v) (h2 : v < 2147483648) :
    toInt32 v = v := by
  unfold toInt32
  rw [Int.emod_eq_of_lt (by omega) (by omega)]
  omega

theorem runAppends_ok {rs : List (List Int)}
    (h : runAppends rs = Except.ok ()) :
    ∀ r ∈ rs, appendRow r = Except.ok () := by
  induction rs with
  | nil => intro r hr; cases hr
  | cons a as ih =>
    intro r hr
    unfold runAppends at h
    cases har : appendRow a with
    | ok u =>
      rw [har] at h
      rcases List.mem_cons.mp hr with hr1 | hr2
      · cases u; rw [hr1]; exact har
      · exact ih h r hr2
    | error e =>
      rw [har] at h
      cases h

theorem exceptUnitCases (x : Except PgenError Unit) :
    x = Except.ok () ∨ x = Except.error PgenError.UnsupportedGenotypeError := by
  cases x with
  | ok u => cases u; exact Or.inl rfl
  | error e => cases e; exact Or.inr rfl

theorem head?_take_pos {α : Type} (l : List α) {c : Nat} (hc : 0 < c) :
    (l.take c).head? = l.head? := by
  rw [List.head?_take]
  simp [Nat.pos_iff_ne_zero.mp hc]

theorem headD_take_drop {α : Type} (l : List α) (k c : Nat) (d : α) (hc : 0 < c) :
    ((l.drop k).take c).headD d = l.getD k d := by
  rw [List.headD_eq_head?, head?_take_pos _ hc, List.head?_drop,
    List.getD_eq_getElem?_getD]

theorem csvCell_plain {s : String} (h : needsQuote s = false) : csvCell s = s := by
  simp [csvCell, h]

theorem strAppend_assoc (a b c : String) : a ++ b ++ c = a ++ (b ++ c) :=
  String.append_assoc a b c

theorem getD_mem_of_lt {α : Type} (l : List α) {i : Nat} (d : α)
    (h : i < l.length) : l.getD i d ∈ l := by
  rw [List.getD_eq_getElem?_getD, List.getElem?_eq_getElem h]
  exact List.getElem_mem h

/-! ## Concrete objects used by witnesses and counterexamples -/

/-- A small well-formed genotype object: one unphased variant, one
sample. -/
def sX : SNPObject :=
  { calldata_gt := CallData.d2 ⟨1, 1, [0], by decide⟩
    variants_chrom := ["1"]
    variants_pos := ["100"]
    variants_id := ["v1"]
    variants_ref := ["A"]
    variants_alt := ⟨1, 1, ["T"], by decide⟩
    variants_filter_pass := ["true"]
    samples := ["s1"] }

/-- A phased (3-dimensional) genotype object: two variants, one sample,
two alleles per call. -/
def sPh : SNPObject :=
  { calldata_gt := CallData.d3 ⟨2, 1, 2, [0, 1, 1, 0], by decide⟩
    variants_chrom := []
    variants_pos := []
    variants_id := []
    variants_ref := []
    variants_alt := ⟨0, 0, [], by decide⟩
    variants_filter_pass := []
    samples := [] }

/-- Another phased (3-dimensional) genotype object. -/
def sPh2 : SNPObject :=
  { calldata_gt := CallData.d3 ⟨1, 1, 2, [0, 3], by decide⟩
    variants_chrom := []
    variants_pos := []
    variants_id := []
    variants_ref := []
    variants_alt := ⟨0, 0, [], by decide⟩
    variants_filter_pass := []
    samples := [] }

/-- An unphased genotype object with one variant and two samples. -/
def s2w : SNPObject :=
  { calldata_gt := CallData.d2 ⟨1, 2, [0, 1], by decide⟩
    variants_chrom := ["1"]
    variants_pos := ["100"]
    variants_id := ["v1"]
    variants_ref := ["A"]
    variants_alt := ⟨1, 1, ["T"], by decide⟩
    variants_filter_pass := ["true"]
    samples := ["s1", "s2"] }

/-- A genotype object whose single call value 2^32 lies far outside the
hardcall alphabet (and outside the int32 range). -/
def badObj : SNPObject :=
  { calldata_gt := CallData.d2 ⟨1, 1, [4294967296], by decide⟩
    variants_chrom := ["1"]
    variants_pos := ["100"]
    variants_id := ["v1"]
    variants_ref := ["A"]
    variants_alt := ⟨1, 1, ["T"], by decide⟩
    variants_filter_pass := ["true"]
    samples := ["s1"] }

/-- A genotype object whose single call value 5 is outside the hardcall
alphabet but inside the int32 range. -/
def obj5 : SNPObject :=
  { calldata_gt := CallData.d2 ⟨1, 1, [5], by decide⟩
    variants_chrom := ["1"]
    variants_pos := ["100"]
    variants_id := ["v1"]
    variants_ref := ["A"]
    variants_alt := ⟨1, 1, ["T"], by decide⟩
    variants_filter_pass := ["true"]
    samples := ["s1"] }

/-! ## Claims -/

/-- Claim C1: the spec says deriving from "x", "x.pgen" and "x.pvar.zst"
all yield the base "x". Evaluating the source's stripping logic: the
single-extension bases are stripped, but "x.pvar.zst" is left whole,
because `Path.suffix` is only ".zst", which is not in the
`file_extensions` tuple (the tuple's ".pvar.zst" entry can never match
a `Path.suffix`). The code therefore refutes the claim at input
"x.pvar.zst". -/
theorem claim_C1 :
    stripBase "x" = "x" ∧ stripBase "x.pgen" = "x" ∧ stripBase "x.psam" = "x" ∧
    stripBase "x.pvar" = "x" ∧ stripBase "x.pvar.zst" = "x.pvar.zst" ∧
    stripBase "x.pvar.zst" ≠ "x" := by
  decide

/-- Claim C2: the spec says write() produces files at <base>.pvar,
<base>.psam and <base>.pgen. Evaluating write() at base "x": the
sidecars do land at "x.pvar" and "x.psam", but the binary writer is
opened on the bare base "x", not "x.pgen" — the source passes
`str(self.__filename)` to `pgenlib.PgenWriter` without appending the
".pgen" extension its own log line and docstring promise. -/
theorem claim_C2 :
    sidecarPaths (write (fun b => b) ⟨sX, "x"⟩ false true true).1 =
      ["x.pvar", "x.psam"] ∧
    pgenTargets (write (fun b => b) ⟨sX, "x"⟩ false true true).1 = ["x"] ∧
    ("x" : String) ≠ "x.pgen" := by
  decide

/-- Claim C3: write_pgen declares `variant_ct = num_variants` to the
binary writer and performs exactly `num_variants` append calls, one
per row of the flattened genotype matrix, in row order. -/
theorem claim_C3 (f : String) (s : SNPObject) :
    (write_pgen f s).variant_ct = numVariants s.calldata_gt ∧
    (write_pgen f s).appends.length = numVariants s.calldata_gt ∧
    ∀ i : Nat, (write_pgen f s).appends[i]? =
      if i < numVariants s.calldata_gt then
        some ((flatRow s.calldata_gt i).map toInt32)
      else none := by
  refine ⟨rfl, by simp [write_pgen], ?_⟩
  intro i
  by_cases h : i < numVariants s.calldata_gt
  · simp only [write_pgen, List.getElem?_map, List.getElem?_range h,
      Option.map_some', if_pos h]
  · simp only [write_pgen, if_neg h]
    rw [List.getElem?_eq_none]
    rw [List.length_map, List.length_range]
    omega

/-- Claim C4: the phased flag handed to the binary writer is exactly
"the call data is 3-dimensional"; nothing else influences it (two
objects with the same ndim always get the same flag); in the phased
case a variant row is flattened to `num_samples * num_alleles` values,
and every appended row has that flattened width. -/
theorem claim_C4 (f f' : String) (s s' : SNPObject)
    (h : ndim s.calldata_gt = ndim s'.calldata_gt) :
    ((write_pgen f s).hardcall_phase_present = true ↔ ndim s.calldata_gt = 3) ∧
    (write_pgen f s).hardcall_phase_present =
      (write_pgen f' s').hardcall_phase_present ∧
    (ndim s.calldata_gt = 3 →
      flatCols s.calldata_gt = numSamples s.calldata_gt * numAlleles s.calldata_gt) ∧
    (write_pgen f s).appends.all
      (fun r => r.length == flatCols s.calldata_gt) = true := by
  refine ⟨by simp [write_pgen], by simp [write_pgen, h], ?_, ?_⟩
  · cases hc : s.calldata_gt with
    | d2 m => intro h3; simp [ndim] at h3
    | d3 m => intro _; rfl
  · rw [List.all_eq_true]
    intro r hr
    simp only [write_pgen] at hr
    rcases List.mem_map.mp hr with ⟨i, hi, hri⟩
    rw [← hri, List.length_map, flatRow_length _ _ (List.mem_range.mp hi)]
    exact beq_self_eq_true _

/-- Witness for claim C4 at two concrete phased objects. -/
theorem claim_C4_witness :
    ((write_pgen "x" sPh).hardcall_phase_present = true ↔ ndim sPh.calldata_gt = 3) ∧
    (write_pgen "x" sPh).hardcall_phase_present =
      (write_pgen "y" sPh2).hardcall_phase_present ∧
    (ndim sPh.calldata_gt = 3 →
      flatCols sPh.calldata_gt = numSamples sPh.calldata_gt * numAlleles sPh.calldata_gt) ∧
    (write_pgen "x" sPh).appends.all
      (fun r => r.length == flatCols sPh.calldata_gt) = true :=
  claim_C4 "x" "y" sPh sPh2 (by decide)

theorem plainList_getD {l : List String} (h : plainList l = true) (i : Nat) :
    needsQuote (l.getD i "") = false := by
  by_cases hi : i < l.length
  · have hx := (List.all_eq_true.mp h) _ (getD_mem_of_lt l "" hi)
    simpa using hx
  · rw [List.getD_eq_getElem?_getD, List.getElem?_eq_none (by omega)]
    rfl

theorem altFirst_eq_headD (m : StrMat) (i : Nat) (hc : 0 < m.cols) :
    altFirst m i = (altAlleles m i).headD "" := by
  unfold altFirst altAlleles
  exact (headD_take_drop m.data (i * m.cols) m.cols "" hc).symm

/-- Claim C5: write_pvar emits tab-separated text with header row
exactly `#CHROM POS ID REF ALT FILTER`, one row per variant in variant
order, whose ALT field is the first allele of the variant's ALT allele
list (further alleles are dropped). Stated for fields that need no CSV
quoting. -/
theorem claim_C5 (s : SNPObject) (t : String) (ht : pvarCsv s = some t)
    (h1 : plainList s.variants_chrom = true) (h2 : plainList s.variants_pos = true)
    (h3 : plainList s.variants_id = true) (h4 : plainList s.variants_ref = true)
    (h5 : plainList s.variants_alt.data = true)
    (h6 : plainList s.variants_filter_pass = true) :
    t = "#CHROM\tPOS\tID\tREF\tALT\tFILTER\n" ++
      strJoin ((List.range s.variants_chrom.length).map (fun i =>
        s.variants_chrom.getD i "" ++ "\t" ++ s.variants_pos.getD i "" ++ "\t" ++
        s.variants_id.getD i "" ++ "\t" ++ s.variants_ref.getD i "" ++ "\t" ++
        (altAlleles s.variants_alt i).headD "" ++ "\t" ++
        s.variants_filter_pass.getD i "" ++ "\n")) := by
  unfold pvarCsv at ht
  split at ht
  case isTrue hcond =>
    obtain ⟨hc0, -, -, -, -, -⟩ := hcond
    injection ht with ht
    subst ht
    have hh : csvLine ["#CHROM", "POS", "ID", "REF", "ALT", "FILTER"] =
        "#CHROM\tPOS\tID\tREF\tALT\tFILTER\n" := by decide
    rw [hh]
    congr 1
    apply congrArg
    apply List.map_congr_left
    intro i _
    rw [← altFirst_eq_headD _ _ hc0]
    simp only [csvLine, List.map_cons, List.map_nil, joinSep,
      csvCell_plain (plainList_getD h1 i), csvCell_plain (plainList_getD h2 i),
      csvCell_plain (plainList_getD h3 i), csvCell_plain (plainList_getD h4 i),
      csvCell_plain (plainList_getD h5 (i * s.variants_alt.cols)),
      csvCell_plain (plainList_getD h6 i), altFirst, strAppend_assoc]
  case isFalse => cases ht

/-- Witness for claim C5 at a concrete one-variant object. -/
theorem claim_C5_witness :
    pvarCsv sX = some "#CHROM\tPOS\tID\tREF\tALT\tFILTER\n1\t100\tv1\tA\tT\ttrue\n" ∧
    "#CHROM\tPOS\tID\tREF\tALT\tFILTER\n1\t100\tv1\tA\tT\ttrue\n" =
      "#CHROM\tPOS\tID\tREF\tALT\tFILTER\n" ++
      strJoin ((List.range sX.variants_chrom.length).map (fun i =>
        sX.variants_chrom.getD i "" ++ "\t" ++ sX.variants_pos.getD i "" ++ "\t" ++
        sX.variants_id.getD i "" ++ "\t" ++ sX.variants_ref.getD i "" ++ "\t" ++
        (altAlleles sX.variants_alt i).headD "" ++ "\t" ++
        sX.variants_filter_pass.getD i "" ++ "\n")) :=
  ⟨by decide, claim_C5 sX _ (by decide) (by decide) (by decide) (by decide)
    (by decide) (by decide) (by decide)⟩

/-- Claim C6: write_psam emits tab-separated text with header row
exactly `IID SEX` and one row per sample in sample order, the SEX field
always the placeholder "NA". Stated for sample names that need no CSV
quoting. -/
theorem claim_C6 (s : SNPObject) (h : plainList s.samples = true) :
    psamCsv s = "IID\tSEX\n" ++
      strJoin (s.samples.map (fun x => x ++ "\tNA\n")) := by
  unfold psamCsv
  have hh : csvLine ["IID", "SEX"] = "IID\tSEX\n" := by decide
  rw [hh]
  congr 1
  apply congrArg
  apply List.map_congr_left
  intro x hx
  have hp : needsQuote x = false := by
    have := (List.all_eq_true.mp h) _ hx
    simpa using this
  have hna : ("\t" ++ ("NA" ++ "\n") : String) = "\tNA\n" := rfl
  have hNA : csvCell "NA" = "NA" := by decide
  simp only [csvLine, List.map_cons, List.map_nil, joinSep, csvCell_plain hp,
    hNA, strAppend_assoc]
  rw [hna]

/-- Witness for claim C6 at a concrete one-sample object. -/
theorem claim_C6_witness :
    psamCsv sX = "IID\tSEX\n" ++
      strJoin (sX.samples.map (fun x => x ++ "\tNA\n")) :=
  claim_C6 sX (by decide)

/-- Claim C7: vzs is a pure pass-through compression switch. With the
zstd compressor abstracted as an arbitrary byte transform, the vzs=true
run writes exactly the compression of the UTF-8 bytes of the same CSV
text that the vzs=false run writes in plain form, and only the filename
gains the ".zst" extension. -/
theorem claim_C7 (compress : List Nat → List Nat) (f : String) (s : SNPObject)
    (csv : String) (h : pvarCsv s = some csv) :
    write_pvar compress f s true =
      some ⟨f ++ ".pvar.zst", FileContent.binary (compress (utf8Encode csv))⟩ ∧
    write_pvar compress f s false = some ⟨f ++ ".pvar", FileContent.text csv⟩ := by
  unfold write_pvar
  rw [h]
  refine ⟨?_, rfl⟩
  show some (⟨f ++ ".pvar" ++ ".zst", FileContent.binary (compress (utf8Encode csv))⟩ :
    FileWrite) = _
  rw [strAppend_assoc]
  rfl

/-- Witness for claim C7 at a concrete object, with the identity as the
byte transform. -/
theorem claim_C7_witness :
    write_pvar (fun b => b) "x" sX true =
      some ⟨"x" ++ ".pvar.zst", FileContent.binary ((fun b => b)
        (utf8Encode "#CHROM\tPOS\tID\tREF\tALT\tFILTER\n1\t100\tv1\tA\tT\ttrue\n"))⟩ ∧
    write_pvar (fun b => b) "x" sX false =
      some ⟨"x" ++ ".pvar", FileContent.text
        "#CHROM\tPOS\tID\tREF\tALT\tFILTER\n1\t100\tv1\tA\tT\ttrue\n"⟩ :=
  claim_C7 (fun b => b) "x" sX _ (by decide)

/-- Counterexample to claim C8: the matrix containing the single call
value 2^32 — outside the hardcall alphabet — is appended without any
error, because `astype(np.int32)` silently wraps it to 0 before the
codec sees it. -/
theorem claim_C8_counterexample :
    ((4294967296 : Int) ∈ flatData badObj.calldata_gt ∧
      ¬(0 ≤ (4294967296 : Int) ∧ (4294967296 : Int) < 4)) ∧
    writePgenRun "x" badObj = Except.ok () := by
  exact ⟨by decide, rfl⟩

/-- Claim C8 as amended: for call values within the int32 range, a
value outside the hardcall alphabet makes the append run fail with
`UnsupportedGenotypeError`; the no-silent-truncation guarantee holds
only inside that range (values beyond it are wrapped modulo 2^32 by
the int32 cast, see the counterexample). -/
theorem claim_C8 (f : String) (s : SNPObject)
    (hrange : ∀ v ∈ flatData s.calldata_gt,
      -2147483648 ≤ v ∧ v < 2147483648)
    (hbad : ∃ v ∈ flatData s.calldata_gt, ¬(0 ≤ v ∧ v < 4)) :
    writePgenRun f s = Except.error PgenError.UnsupportedGenotypeError := by
  rcases hbad with ⟨v, hv, hvbad⟩
  rcases mem_flatData_exists_row hv with ⟨i, hi, hvrow⟩
  rcases exceptUnitCases (writePgenRun f s) with hok | herr
  · exfalso
    have hrows := runAppends_ok hok
    have hmem : (flatRow s.calldata_gt i).map toInt32 ∈ (write_pgen f s).appends := by
      simp only [write_pgen]
      exact List.mem_map.mpr ⟨i, List.mem_range.mpr hi, rfl⟩
    have happ := hrows _ hmem
    unfold appendRow at happ
    by_cases hall : ((flatRow s.calldata_gt i).map toInt32).all
        (fun u => decide (0 ≤ u) && decide (u < 4)) = true
    · have hvin : toInt32 v ∈ (flatRow s.calldata_gt i).map toInt32 :=
        List.mem_map.mpr ⟨v, hvrow, rfl⟩
      have hvv := (List.all_eq_true.mp hall) _ hvin
      rcases hrange v hv with ⟨hr1, hr2⟩
      rw [toInt32_eq_self hr1 hr2] at hvv
      simp only [Bool.and_eq_true, decide_eq_true_eq] at hvv
      exact hvbad hvv
    · rw [if_neg hall] at happ
      cases happ
  · exact herr

/-- Witness for the amended claim C8 at the concrete in-range
out-of-alphabet value 5. -/
theorem claim_C8_witness :
    writePgenRun "x" obj5 = Except.error PgenError.UnsupportedGenotypeError :=
  claim_C8 "x" obj5 (by decide) ⟨5, by decide, by decide⟩

/-- Claim C9: write() performs the .pvar and .psam sidecar writes
strictly before the binary .pgen write; if either sidecar write fails
(the method aborts), the trace of completed output actions contains no
binary write at all. -/
theorem claim_C9 (compress : List Nat → List Nat) (w : PGENWriter)
    (vzs pvarOk psamOk : Bool) :
    ((write compress w vzs pvarOk psamOk).2 = false →
      hasPgenStep (write compress w vzs pvarOk psamOk).1 = false) ∧
    sidecarsBeforePgen (write compress w vzs pvarOk psamOk).1 = true := by
  unfold write
  cases hpv : write_pvar compress (stripBase w.filename) w.snpobj vzs with
  | none => exact ⟨fun _ => rfl, rfl⟩
  | some fv =>
    cases pvarOk with
    | false => exact ⟨fun _ => rfl, rfl⟩
    | true =>
      cases psamOk with
      | false => exact ⟨fun _ => rfl, rfl⟩
      | true => exact ⟨(fun hcontra => nomatch hcontra), rfl⟩

/-- Witness for claim C9: a run whose .psam write fails. -/
theorem claim_C9_witness :
    ((write (fun b => b) ⟨sX, "x"⟩ false true false).2 = false →
      hasPgenStep (write (fun b => b) ⟨sX, "x"⟩ false true false).1 = false) ∧
    sidecarsBeforePgen (write (fun b => b) ⟨sX, "x"⟩ false true false).1 = true :=
  claim_C9 (fun b => b) ⟨sX, "x"⟩ false true false

/-- Claim C10: every row handed to the binary writer has exactly the
flattened width derived from the shape of `calldata_gt` itself —
`num_samples` when unphased, `num_samples * num_alleles` when phased —
and the declared `sample_ct` comes from the same shape, so declaration
and appends can never disagree at this interface. -/
theorem claim_C10 (f : String) (s : SNPObject) (r : List Int)
    (hr : r ∈ (write_pgen f s).appends) :
    r.length = flatCols s.calldata_gt ∧
    (write_pgen f s).sample_ct = numSamples s.calldata_gt ∧
    (ndim s.calldata_gt = 3 →
      flatCols s.calldata_gt = numSamples s.calldata_gt * numAlleles s.calldata_gt) ∧
    (ndim s.calldata_gt = 2 → flatCols s.calldata_gt = numSamples s.calldata_gt) := by
  refine ⟨?_, rfl, ?_, ?_⟩
  · simp only [write_pgen] at hr
    rcases List.mem_map.mp hr with ⟨i, hi, hri⟩
    rw [← hri, List.length_map]
    exact flatRow_length _ _ (List.mem_range.mp hi)
  · cases s.calldata_gt with
    | d2 m => intro h3; simp [ndim] at h3
    | d3 m => intro _; rfl
  · cases s.calldata_gt with
    | d2 m => intro _; rfl
    | d3 m => intro h2; simp [ndim] at h2

/-- Witness for claim C10 at a concrete appended row. -/
theorem claim_C10_witness :
    ([0, 1] : List Int).length = flatCols s2w.calldata_gt ∧
    (write_pgen "x" s2w).sample_ct = numSamples s2w.calldata_gt ∧
    (ndim s2w.calldata_gt = 3 →
      flatCols s2w.calldata_gt = numSamples s2w.calldata_gt * numAlleles s2w.calldata_gt) ∧
    (ndim s2w.calldata_gt = 2 → flatCols s2w.calldata_gt = numSamples s2w.calldata_gt) :=
  claim_C10 "x" s2w [0, 1] (by decide)

end PGENSpec
